import Mathlib

/-!
Verification of `src/app.py` (customer support case analysis dashboard).

The embedding models a pandas DataFrame as a `Table`: a list of column
names together with rows, each row an association list from column name
to cell.  A cell is absent (`null`, modelling NaN/NaT), a raw string, or
a parsed date.  `pd.to_datetime` is modelled by an arbitrary parse
function `String → Option Date` (the claims hold for every such
function).  Streamlit side effects (`st.sidebar.info`, `st.error`,
`st.stop`, chart rendering) are modelled as data: the cleaner returns
its sidebar messages, and the top-level script returns a `Dashboard`
holding the error messages, the rendered charts and the final state of
the dataframe `df`.  Sorting by descending count is modelled with a
stable insertion sort (the sort order the code requests from pandas is
descending count; tie order among equal counts is implementation
detail, deterministic here as in pandas).
-/

namespace CaseAnalysis

structure Date where
  year : Nat
  month : Nat
  day : Nat
deriving DecidableEq

inductive Cell where
  | null : Cell
  | str : String → Cell
  | date : Date → Cell
deriving DecidableEq

/-- A row of the dataframe: an association list from column name to cell. -/
abbrev Row := List (String × Cell)

structure Table where
  cols : List String
  rows : List Row
deriving DecidableEq

/-- `df[c]` for one row: the first cell stored under column name `c`
(absent entries read as null, as pandas `isnull` sees NaN). -/
def getCell (r : Row) (c : String) : Cell :=
  match r with
  | [] => Cell.null
  | p :: r => if p.1 == c then p.2 else getCell r c

/-- The column `df[c]` as a list of cells, one per row. -/
def getCol (t : Table) (c : String) : List Cell :=
  t.rows.map (fun r => getCell r c)

/-- `pd.to_datetime(x, errors='coerce')` on one cell: a string either
parses to a date or coerces to NaT (null); dates stay; NaT stays. -/
def coerceCell (parse : String → Option Date) : Cell → Cell
  | Cell.null => Cell.null
  | Cell.str s =>
    match parse s with
    | some d => Cell.date d
    | none => Cell.null
  | Cell.date d => Cell.date d

/-- One row after `pd.to_datetime` on column `c`: every entry under `c`
is coerced, the others are untouched. -/
def coerceRow (parse : String → Option Date) (c : String) (r : Row) : Row :=
  r.map (fun p => if p.1 == c then (p.1, coerceCell parse p.2) else p)

/-- `df[c] = pd.to_datetime(df[c], errors='coerce')` (line 17). -/
def toDatetime (parse : String → Option Date) (c : String) (t : Table) : Table :=
  { t with rows := t.rows.map (coerceRow parse c) }

/-- `df.dropna(subset=[c])` (line 18): keep rows whose cell at `c` is present. -/
def dropnaSubset (c : String) (t : Table) : Table :=
  { t with rows := t.rows.filter (fun r => getCell r c != Cell.null) }

/-- `df[c].isnull().all()`. -/
def allNull (t : Table) (c : String) : Bool :=
  (getCol t c).all (fun x => x == Cell.null)

/-- One row with every entry under column `c` removed. -/
def dropRowCol (c : String) (r : Row) : Row :=
  r.filter (fun p => p.1 != c)

/-- `df.drop(columns=[c])`: remove the column label and every row entry under it. -/
def dropColumn (c : String) (t : Table) : Table :=
  { cols := t.cols.filter (fun x => x != c),
    rows := t.rows.map (dropRowCol c) }

/-- Fuelled helper for duplicate removal; the fuel strictly exceeds the
number of remaining elements whenever it is consumed, so the zero case
is never reached from `dedupFirst`. -/
def dedupFuel {α : Type} [DecidableEq α] : Nat → List α → List α
  | _, [] => []
  | 0, _ :: _ => []
  | n + 1, a :: l => a :: dedupFuel n (l.filter (fun x => x != a))

/-- `df.drop_duplicates()`: keep the first occurrence of each row value. -/
def dedupFirst {α : Type} [DecidableEq α] (l : List α) : List α :=
  dedupFuel l.length l

/-- The number of occurrences of `v` in `l` (the group size of `v` under
`value_counts` / `groupby(...).size()`). -/
def countOcc {α : Type} [DecidableEq α] (v : α) (l : List α) : Nat :=
  (l.filter (fun x => x == v)).length

/-- The cleaned table after date coercion and row filtering (lines 17-18),
before the Store-column check. -/
def afterDateFilter (parse : String → Option Date) (t : Table) : Table :=
  dropnaSubset "Opened Date" (toDatetime parse "Opened Date" t)

/-- The condition of line 21: `'Store' in df.columns and df['Store'].isnull().all()`. -/
def storeDropFlag (parse : String → Option Date) (t : Table) : Bool :=
  decide ("Store" ∈ (afterDateFilter parse t).cols) && allNull (afterDateFilter parse t) "Store"

/-- The table after lines 17-23: date filtering plus the conditional Store drop. -/
def beforeDedup (parse : String → Option Date) (t : Table) : Table :=
  if storeDropFlag parse t then dropColumn "Store" (afterDateFilter parse t)
  else afterDateFilter parse t

/-- The fully cleaned table returned by `load_and_clean_data` (line 34). -/
def cleanTable (parse : String → Option Date) (t : Table) : Table :=
  { beforeDedup parse t with rows := dedupFirst (beforeDedup parse t).rows }

/-- The sidebar message of lines 29-32 reporting the duplicate removal. -/
def dupMessage (removed : Nat) : String :=
  if removed > 0 then "Removed " ++ toString removed ++ " duplicate rows."
  else "No duplicate rows found."

/-- `load_and_clean_data` (lines 9-34).  The input file is `none` when
`data/data.csv` is missing, in which case `st.error` plus `st.stop`
surface one message and halt; otherwise the cleaned table is returned
together with the sidebar notices. -/
def load_and_clean_data (parse : String → Option Date) (file : Option Table) :
    Except String (Table × List String) :=
  match file with
  | none => Except.error
      "Error: 'data.csv' not found. Please make sure the file is in the same directory as the Streamlit app."
  | some df =>
    let msgs1 := if storeDropFlag parse df
      then ["Dropped 'Store' column due to all null values."] else []
    let removed := (beforeDedup parse df).rows.length - (cleanTable parse df).rows.length
    Except.ok (cleanTable parse df, msgs1 ++ [dupMessage removed])

/-- The sidebar messages emitted by a run of the cleaner. -/
def sidebarOf : Except String (Table × List String) → List String
  | Except.ok p => p.2
  | Except.error _ => []

/-- Descending order by count on (value, count) pairs, the sort order of
`value_counts`. -/
def countDesc (a b : Cell × Nat) : Prop := b.2 ≤ a.2

instance : DecidableRel countDesc := fun a b => Nat.decLe b.2 a.2

instance : IsTotal (Cell × Nat) countDesc :=
  ⟨fun a b => (Nat.le_total b.2 a.2).imp (fun h => h) (fun h => h)⟩

instance : IsTrans (Cell × Nat) countDesc :=
  ⟨fun _ _ _ hab hbc => Nat.le_trans hbc hab⟩

/-- `df[c].value_counts()` (optionally followed by `head`): one
(value, count) pair per distinct non-null value of the column, sorted by
descending count; ties keep first-appearance order (stable sort). -/
def value_counts (t : Table) (c : String) : List (Cell × Nat) :=
  let vals := (getCol t c).filter (fun x => x != Cell.null)
  List.insertionSort countDesc ((dedupFirst vals).map (fun v => (v, countOcc v vals)))

/-- `df['Status'].value_counts()` (line 54). -/
def status_counts (t : Table) : List (Cell × Nat) := value_counts t "Status"

/-- `df['Case Origin'].value_counts()` (line 67). -/
def origin_counts (t : Table) : List (Cell × Nat) := value_counts t "Case Origin"

/-- `df['Product: Brand'].value_counts().head(10)` (line 80). -/
def top_brands (t : Table) : List (Cell × Nat) :=
  (value_counts t "Product: Brand").take 10

/-- `df['Reason L1 desc'].value_counts().head(10)` (line 94). -/
def top_reasons (t : Table) : List (Cell × Nat) :=
  (value_counts t "Reason L1 desc").take 10

/-- Zero-padded two-digit rendering, as in a period string `2024-01`. -/
def pad2 (n : Nat) : String :=
  if n < 10 then "0" ++ toString n else toString n

/-- `df['Opened Date'].dt.to_period('M').astype(str)` on one cell. -/
def yearMonthCell : Cell → Cell
  | Cell.date d => Cell.str (toString d.year ++ "-" ++ pad2 d.month)
  | _ => Cell.null

/-- Column assignment on one row, as pandas `df[c] = ...` acts on a row:
if the row already carries column `c` the stored value is overwritten in
place, otherwise the new column is appended at the end. -/
def setRowCell (c : String) (v : Cell) (r : Row) : Row :=
  if r.any (fun p => p.1 == c) then
    r.map (fun p => if p.1 == c then (p.1, v) else p)
  else r ++ [(c, v)]

/-- Line 108: `df['YearMonth'] = ...` writes the derived period column
into `df` — overwriting a pre-existing YearMonth column in place, and
appending the column at the end otherwise. -/
def addYearMonth (t : Table) : Table :=
  { cols := if "YearMonth" ∈ t.cols then t.cols else t.cols ++ ["YearMonth"],
    rows := t.rows.map (fun r =>
      setRowCell "YearMonth" (yearMonthCell (getCell r "Opened Date")) r) }

/-- The year-month bucket of a cell: the calendar period `(year, month)`
of a parsed date, none for anything else. -/
def monthKey : Cell → Option (Nat × Nat)
  | Cell.date d => some (d.year, d.month)
  | _ => none

/-- Chronological (lexicographic) order on year-month buckets. -/
def ymLe (a b : Nat × Nat) : Prop :=
  a.1 < b.1 ∨ (a.1 = b.1 ∧ a.2 ≤ b.2)

instance : DecidableRel ymLe := fun a b => by
  unfold ymLe
  exact inferInstance

instance : IsTotal (Nat × Nat) ymLe := by
  constructor
  intro a b
  unfold ymLe
  omega

instance : IsTrans (Nat × Nat) ymLe := by
  constructor
  intro a b c hab hbc
  unfold ymLe at hab hbc ⊢
  omega

/-- Strict chronological order on year-month buckets. -/
def ymLt (a b : Nat × Nat) : Prop :=
  a.1 < b.1 ∨ (a.1 = b.1 ∧ a.2 < b.2)

/-- Lines 108-111: group the rows by year-month bucket of the opened
date, count each group, and sort chronologically.  On the cleaned table
every opened date is a parsed date, so each row contributes exactly its
own bucket. -/
def monthly_cases (t : Table) : List ((Nat × Nat) × Nat) :=
  let keys := (getCol t "Opened Date").filterMap monthKey
  (List.insertionSort ymLe (dedupFirst keys)).map (fun k => (k, countOcc k keys))

/-- A rendered chart: a bar chart of a frequency table or the monthly
trend line chart. -/
inductive Chart where
  | bar : List (Cell × Nat) → Chart
  | line : List ((Nat × Nat) × Nat) → Chart
deriving DecidableEq

/-- The observable outcome of one run of the script: error messages,
the charts rendered (in order), and the final state of `df`. -/
structure Dashboard where
  errorMsgs : List String
  charts : List Chart
  finalTable : Option Table
deriving DecidableEq

/-- The whole script `app.py` run top to bottom: clean (or halt with an
error and zero charts), then the five aggregations and their charts in
order; the fifth mutates `df` by adding the YearMonth column. -/
def runApp (parse : String → Option Date) (file : Option Table) : Dashboard :=
  match load_and_clean_data parse file with
  | Except.error e => { errorMsgs := [e], charts := [], finalTable := none }
  | Except.ok (df, _) =>
    let df2 := addYearMonth df
    { errorMsgs := [],
      charts := [Chart.bar (status_counts df), Chart.bar (origin_counts df),
        Chart.bar (top_brands df), Chart.bar (top_reasons df),
        Chart.line (monthly_cases df2)],
      finalTable := some df2 }

/-- The number of rows of `t` whose value in column `c` is present. -/
def nonNullCount (t : Table) (c : String) : Nat :=
  ((getCol t c).filter (fun x => x != Cell.null)).length

/-! ### Concrete fixtures used by witnesses and counterexamples -/

/-- A concrete date parser (stands in for the pandas parser in concrete runs). -/
def parse0 : String → Option Date := fun s =>
  if s = "2024-01-02" then some (Date.mk 2024 1 2)
  else if s = "2024-02-03" then some (Date.mk 2024 2 3)
  else none

/-- A one-row file with just the date column. -/
def ex1 : Table :=
  Table.mk ["Opened Date"] [[("Opened Date", Cell.str "2024-01-02")]]

/-- A file with an entirely absent column that is not named Store. -/
def ex2 : Table :=
  Table.mk ["Opened Date", "Foo"]
    [[("Opened Date", Cell.str "2024-01-02"), ("Foo", Cell.null)]]

/-- A file whose single row has an absent Status value. -/
def ex3 : Table :=
  Table.mk ["Opened Date", "Status"]
    [[("Opened Date", Cell.str "2024-01-02"), ("Status", Cell.null)]]

/-- A three-row file with a duplicate row and two distinct months. -/
def ex4 : Table :=
  Table.mk ["Opened Date", "Status"]
    [[("Opened Date", Cell.str "2024-01-02"), ("Status", Cell.str "Open")],
     [("Opened Date", Cell.str "2024-02-03"), ("Status", Cell.str "Closed")],
     [("Opened Date", Cell.str "2024-02-03"), ("Status", Cell.str "Closed")]]

/-- A file with an all-null Store column plus a populated extra column. -/
def exStore : Table :=
  Table.mk ["Opened Date", "Store", "Foo"]
    [[("Opened Date", Cell.str "2024-01-02"), ("Store", Cell.null),
      ("Foo", Cell.str "x")]]

/-- One row of `exBrands`: a fixed date, an Open status, and brand `b`. -/
def brandRow (b : String) : Row :=
  [("Opened Date", Cell.str "2024-01-02"), ("Status", Cell.str "Open"),
   ("Product: Brand", Cell.str b)]

/-- An eleven-row file with eleven distinct brand values. -/
def exBrands : Table :=
  Table.mk ["Opened Date", "Status", "Product: Brand"]
    [brandRow "B01", brandRow "B02", brandRow "B03", brandRow "B04",
     brandRow "B05", brandRow "B06", brandRow "B07", brandRow "B08",
     brandRow "B09", brandRow "B10", brandRow "B11"]

/-! ### Duplicate removal: membership, nodup, fixed points, count sums -/

theorem mem_dedupFuel {α : Type} [DecidableEq α] {n : Nat} {l : List α}
    (h : l.length ≤ n) {x : α} : x ∈ dedupFuel n l ↔ x ∈ l := by
  induction n generalizing l with
  | zero =>
    cases l with
    | nil => simp [dedupFuel]
    | cons a l => simp at h
  | succ n ih =>
    cases l with
    | nil => simp [dedupFuel]
    | cons a l =>
      have hlen : (l.filter (fun x => x != a)).length ≤ n := by
        have := List.length_filter_le (fun x => x != a) l
        simp only [List.length_cons] at h
        omega
      simp only [dedupFuel, List.mem_cons, ih hlen]
      constructor
      · rintro (rfl | hx)
        · exact Or.inl rfl
        · exact Or.inr (List.mem_filter.mp hx).1
      · rintro (rfl | hx)
        · exact Or.inl rfl
        · by_cases hxa : x = a
          · exact Or.inl hxa
          · exact Or.inr (List.mem_filter.mpr ⟨hx, bne_iff_ne.mpr hxa⟩)

theorem mem_dedupFirst {α : Type} [DecidableEq α] {l : List α} {x : α} :
    x ∈ dedupFirst l ↔ x ∈ l :=
  mem_dedupFuel (Nat.le_refl _)

theorem nodup_dedupFuel {α : Type} [DecidableEq α] {n : Nat} {l : List α}
    (h : l.length ≤ n) : (dedupFuel n l).Nodup := by
  induction n generalizing l with
  | zero =>
    cases l with
    | nil => simp [dedupFuel]
    | cons a l => simp at h
  | succ n ih =>
    cases l with
    | nil => simp [dedupFuel]
    | cons a l =>
      have hlen : (l.filter (fun x => x != a)).length ≤ n := by
        have := List.length_filter_le (fun x => x != a) l
        simp only [List.length_cons] at h
        omega
      simp only [dedupFuel, List.nodup_cons]
      refine ⟨fun hmem => ?_, ih hlen⟩
      have hx := (mem_dedupFuel hlen).mp hmem
      exact bne_iff_ne.mp (List.mem_filter.mp hx).2 rfl

theorem nodup_dedupFirst {α : Type} [DecidableEq α] (l : List α) :
    (dedupFirst l).Nodup :=
  nodup_dedupFuel (Nat.le_refl _)

theorem dedupFuel_eq_self {α : Type} [DecidableEq α] {n : Nat} {l : List α}
    (h : l.length ≤ n) (hnd : l.Nodup) : dedupFuel n l = l := by
  induction n generalizing l with
  | zero =>
    cases l with
    | nil => simp [dedupFuel]
    | cons a l => simp at h
  | succ n ih =>
    cases l with
    | nil => simp [dedupFuel]
    | cons a l =>
      obtain ⟨ha, hl⟩ := List.nodup_cons.mp hnd
      have hfl : l.filter (fun x => x != a) = l := by
        refine List.filter_eq_self.mpr (fun x hx => ?_)
        exact bne_iff_ne.mpr (fun hxa => ha (hxa ▸ hx))
      have hlen : l.length ≤ n := by
        simp only [List.length_cons] at h
        omega
      simp only [dedupFuel, hfl, ih hlen hl]

theorem dedupFirst_eq_self {α : Type} [DecidableEq α] {l : List α}
    (hnd : l.Nodup) : dedupFirst l = l :=
  dedupFuel_eq_self (Nat.le_refl _) hnd

theorem countOcc_cons {α : Type} [DecidableEq α] (v a : α) (l : List α) :
    countOcc v (a :: l) = countOcc v l + (if a = v then 1 else 0) := by
  by_cases ha : a = v
  · simp [countOcc, List.filter_cons, ha]
  · simp [countOcc, List.filter_cons, beq_eq_false_iff_ne.mpr ha, ha]

theorem countOcc_filter {α : Type} [DecidableEq α] {p : α → Bool} {v : α}
    (hp : p v = true) (l : List α) :
    countOcc v (l.filter p) = countOcc v l := by
  induction l with
  | nil => rfl
  | cons a l ih =>
    by_cases hpa : p a = true
    · rw [List.filter_cons, if_pos hpa, countOcc_cons, countOcc_cons, ih]
    · have hav : a ≠ v := fun h => hpa (h ▸ hp)
      rw [List.filter_cons, if_neg hpa, countOcc_cons, if_neg hav, ih, Nat.add_zero]

theorem countOcc_pos {α : Type} [DecidableEq α] {v : α} {l : List α} :
    0 < countOcc v l ↔ v ∈ l := by
  induction l with
  | nil => simp [countOcc]
  | cons a l ih =>
    rw [countOcc_cons, List.mem_cons]
    by_cases ha : a = v
    · simp [ha]
    · simp only [ha, if_false, Nat.add_zero, ih]
      constructor
      · exact Or.inr
      · rintro (rfl | h)
        · exact absurd rfl ha
        · exact h

theorem countOcc_add_filter_length {α : Type} [DecidableEq α] (a : α) (l : List α) :
    countOcc a l + (l.filter (fun x => x != a)).length = l.length := by
  induction l with
  | nil => rfl
  | cons b l ih =>
    by_cases hb : b = a
    · rw [countOcc_cons, if_pos hb, List.filter_cons,
        if_neg (by simp [hb]), List.length_cons]
      omega
    · rw [countOcc_cons, if_neg hb, List.filter_cons,
        if_pos (bne_iff_ne.mpr hb), List.length_cons, List.length_cons]
      omega

theorem sum_counts_dedupFuel {α : Type} [DecidableEq α] {n : Nat} {l : List α}
    (h : l.length ≤ n) :
    ((dedupFuel n l).map (fun v => countOcc v l)).sum = l.length := by
  induction n generalizing l with
  | zero =>
    cases l with
    | nil => simp [dedupFuel]
    | cons a l => simp at h
  | succ n ih =>
    cases l with
    | nil => simp [dedupFuel]
    | cons a l =>
      have hlen : (l.filter (fun x => x != a)).length ≤ n := by
        have := List.length_filter_le (fun x => x != a) l
        simp only [List.length_cons] at h
        omega
      simp only [dedupFuel, List.map_cons, List.sum_cons]
      have hcong : (dedupFuel n (l.filter (fun x => x != a))).map
            (fun v => countOcc v (a :: l))
          = (dedupFuel n (l.filter (fun x => x != a))).map
            (fun v => countOcc v (l.filter (fun x => x != a))) := by
        refine List.map_congr_left (fun v hv => ?_)
        have hvmem := (mem_dedupFuel hlen).mp hv
        have hvne : (v != a) = true := (List.mem_filter.mp hvmem).2
        have hne : a ≠ v := fun hav => (bne_iff_ne.mp hvne) hav.symm
        rw [countOcc_cons, if_neg hne, Nat.add_zero,
          @countOcc_filter _ _ (fun x => x != a) v hvne l]
      rw [hcong, ih hlen, countOcc_cons, if_pos rfl, List.length_cons]
      have := countOcc_add_filter_length a l
      omega

theorem sum_counts_dedupFirst {α : Type} [DecidableEq α] (l : List α) :
    ((dedupFirst l).map (fun v => countOcc v l)).sum = l.length :=
  sum_counts_dedupFuel (Nat.le_refl _)

/-! ### Reading cells through the row transformations -/

theorem getCell_coerceRow (parse : String → Option Date) (c : String) (r : Row) :
    getCell (coerceRow parse c r) c = coerceCell parse (getCell r c) := by
  induction r with
  | nil => simp [getCell, coerceRow, coerceCell]
  | cons p r ih =>
    by_cases hp : (p.1 == c) = true
    · simp [getCell, coerceRow, hp]
    · simp only [coerceRow, List.map_cons, hp, Bool.false_eq_true, if_false, getCell]
      exact ih

theorem getCell_dropRowCol {c c0 : String} (hne : c ≠ c0) (r : Row) :
    getCell (dropRowCol c0 r) c = getCell r c := by
  induction r with
  | nil => simp [getCell, dropRowCol]
  | cons p r ih =>
    by_cases hp : (p.1 != c0) = true
    · simp only [dropRowCol, List.filter_cons, hp, if_true, getCell]
      by_cases hc : (p.1 == c) = true
      · simp [hc]
      · simp only [hc, Bool.false_eq_true, if_false]
        exact ih
    · have hp1 : p.1 = c0 := by
        by_cases h0 : p.1 = c0
        · exact h0
        · exact absurd (bne_iff_ne.mpr h0) hp
      have hc : (p.1 == c) = false :=
        beq_eq_false_iff_ne.mpr (fun h => hne ((hp1 ▸ h : c0 = c)).symm)
      simp only [dropRowCol, List.filter_cons, hp, Bool.false_eq_true, if_false, getCell, hc]
      exact ih

theorem coerceCell_idem (parse : String → Option Date) (c : Cell) :
    coerceCell parse (coerceCell parse c) = coerceCell parse c := by
  cases c with
  | null => simp [coerceCell]
  | str s =>
    simp only [coerceCell]
    cases parse s with
    | none => simp [coerceCell]
    | some d => simp [coerceCell]
  | date d => simp [coerceCell]

theorem coerceCell_null_or_date (parse : String → Option Date) (c : Cell) :
    coerceCell parse c = Cell.null ∨ ∃ d, coerceCell parse c = Cell.date d := by
  cases c with
  | null => exact Or.inl rfl
  | str s =>
    simp only [coerceCell]
    cases parse s with
    | none => exact Or.inl rfl
    | some d => exact Or.inr ⟨d, rfl⟩
  | date d => exact Or.inr ⟨d, rfl⟩

theorem coerceRow_idem (parse : String → Option Date) (c : String) (r : Row) :
    coerceRow parse c (coerceRow parse c r) = coerceRow parse c r := by
  simp only [coerceRow, List.map_map]
  refine List.map_congr_left (fun p _ => ?_)
  simp only [Function.comp]
  by_cases hp : (p.1 == c) = true
  · simp [hp, coerceCell_idem]
  · simp [hp]

theorem coerceRow_dropRowCol (parse : String → Option Date) (c c0 : String) (r : Row) :
    coerceRow parse c (dropRowCol c0 r) = dropRowCol c0 (coerceRow parse c r) := by
  simp only [coerceRow, dropRowCol, List.filter_map]
  congr 1
  refine List.filter_congr (fun p _ => ?_)
  by_cases hp : (p.1 == c) = true
  · simp [Function.comp, hp]
  · simp [Function.comp, hp]

/-! ### The cleaned table: dates present, coercion fixed point, columns -/

theorem afterDateFilter_rows (parse : String → Option Date) (t : Table) :
    (afterDateFilter parse t).rows =
      (t.rows.map (coerceRow parse "Opened Date")).filter
        (fun r => getCell r "Opened Date" != Cell.null) := rfl

theorem afterDateFilter_cols (parse : String → Option Date) (t : Table) :
    (afterDateFilter parse t).cols = t.cols := rfl

theorem afterDateFilter_openedDate (parse : String → Option Date) (t : Table) :
    ∀ r ∈ (afterDateFilter parse t).rows, ∃ d, getCell r "Opened Date" = Cell.date d := by
  intro r hr
  rw [afterDateFilter_rows] at hr
  obtain ⟨hmem, hnn⟩ := List.mem_filter.mp hr
  obtain ⟨r0, _, rfl⟩ := List.mem_map.mp hmem
  rw [getCell_coerceRow] at hnn ⊢
  rcases coerceCell_null_or_date parse (getCell r0 "Opened Date") with h | h
  · rw [h] at hnn
    simp at hnn
  · exact h

theorem afterDateFilter_coerceFixed (parse : String → Option Date) (t : Table) :
    ∀ r ∈ (afterDateFilter parse t).rows, coerceRow parse "Opened Date" r = r := by
  intro r hr
  rw [afterDateFilter_rows] at hr
  obtain ⟨hmem, _⟩ := List.mem_filter.mp hr
  obtain ⟨r0, _, rfl⟩ := List.mem_map.mp hmem
  exact coerceRow_idem parse "Opened Date" r0

theorem beforeDedup_rows_property (parse : String → Option Date) (t : Table)
    {P : Row → Prop}
    (hfilter : ∀ r, P r → P (dropRowCol "Store" r))
    (hall : ∀ r ∈ (afterDateFilter parse t).rows, P r) :
    ∀ r ∈ (beforeDedup parse t).rows, P r := by
  intro r hr
  unfold beforeDedup at hr
  by_cases hflag : storeDropFlag parse t
  · rw [if_pos hflag] at hr
    obtain ⟨r1, hr1, rfl⟩ := List.mem_map.mp hr
    exact hfilter r1 (hall r1 hr1)
  · rw [if_neg hflag] at hr
    exact hall r hr

theorem cleanTable_rows_property (parse : String → Option Date) (t : Table)
    {P : Row → Prop}
    (hfilter : ∀ r, P r → P (dropRowCol "Store" r))
    (hall : ∀ r ∈ (afterDateFilter parse t).rows, P r) :
    ∀ r ∈ (cleanTable parse t).rows, P r := by
  intro r hr
  have hr' : r ∈ (beforeDedup parse t).rows := mem_dedupFirst.mp hr
  exact beforeDedup_rows_property parse t hfilter hall r hr'

theorem cleanTable_openedDate (parse : String → Option Date) (t : Table) :
    ∀ r ∈ (cleanTable parse t).rows, ∃ d, getCell r "Opened Date" = Cell.date d := by
  refine cleanTable_rows_property parse t (fun r hr => ?_)
    (afterDateFilter_openedDate parse t)
  rw [getCell_dropRowCol (by decide) r]
  exact hr

theorem cleanTable_coerceFixed (parse : String → Option Date) (t : Table) :
    ∀ r ∈ (cleanTable parse t).rows, coerceRow parse "Opened Date" r = r := by
  refine cleanTable_rows_property parse t (fun r hr => ?_)
    (afterDateFilter_coerceFixed parse t)
  rw [coerceRow_dropRowCol, hr]

theorem cleanTable_cols (parse : String → Option Date) (t : Table) :
    (cleanTable parse t).cols =
      if storeDropFlag parse t then t.cols.filter (fun x => x != "Store")
      else t.cols := by
  unfold cleanTable beforeDedup
  by_cases hflag : storeDropFlag parse t
  · simp [hflag, dropColumn, afterDateFilter, dropnaSubset, toDatetime]
  · simp [hflag, afterDateFilter, dropnaSubset, toDatetime]

theorem cleanTable_nodup (parse : String → Option Date) (t : Table) :
    (cleanTable parse t).rows.Nodup :=
  nodup_dedupFirst _

/-! ### Idempotence of the cleaning pass -/

theorem toDatetime_cleanTable (parse : String → Option Date) (t : Table) :
    toDatetime parse "Opened Date" (cleanTable parse t) = cleanTable parse t := by
  have hrows : (cleanTable parse t).rows.map (coerceRow parse "Opened Date")
      = (cleanTable parse t).rows := by
    rw [List.map_congr_left (cleanTable_coerceFixed parse t)]
    exact List.map_id _
  simp [toDatetime, hrows]

theorem dropna_cleanTable (parse : String → Option Date) (t : Table) :
    dropnaSubset "Opened Date" (cleanTable parse t) = cleanTable parse t := by
  have hrows : (cleanTable parse t).rows.filter
      (fun r => getCell r "Opened Date" != Cell.null) = (cleanTable parse t).rows := by
    refine List.filter_eq_self.mpr (fun r hr => ?_)
    obtain ⟨d, hd⟩ := cleanTable_openedDate parse t r hr
    rw [hd]
    simp
  simp [dropnaSubset, hrows]

theorem afterDateFilter_cleanTable (parse : String → Option Date) (t : Table) :
    afterDateFilter parse (cleanTable parse t) = cleanTable parse t := by
  rw [afterDateFilter, toDatetime_cleanTable, dropna_cleanTable]

theorem allNull_eq_false_iff (t : Table) (c : String) :
    allNull t c = false ↔ ∃ r ∈ t.rows, getCell r c ≠ Cell.null := by
  rw [allNull, getCol, Bool.eq_false_iff]
  constructor
  · intro h
    by_contra hno
    push_neg at hno
    refine h (List.all_eq_true.mpr ?_)
    intro x hx
    obtain ⟨r, hr, rfl⟩ := List.mem_map.mp hx
    exact beq_iff_eq.mpr (hno r hr)
  · rintro ⟨r, hr, hne⟩ hall
    have := List.all_eq_true.mp hall (getCell r c) (List.mem_map.mpr ⟨r, hr, rfl⟩)
    exact hne (beq_iff_eq.mp this)

theorem storeDropFlag_cleanTable (parse : String → Option Date) (t : Table) :
    storeDropFlag parse (cleanTable parse t) = false := by
  unfold storeDropFlag
  rw [afterDateFilter_cleanTable]
  by_cases hflag : storeDropFlag parse t
  · have hcols : (cleanTable parse t).cols = t.cols.filter (fun x => x != "Store") := by
      rw [cleanTable_cols, if_pos hflag]
    have hmem : "Store" ∉ (cleanTable parse t).cols := by
      rw [hcols]
      intro hmem
      exact bne_iff_ne.mp (List.mem_filter.mp hmem).2 rfl
    simp [hmem]
  · have hflagf : storeDropFlag parse t = false := Bool.eq_false_iff.mpr hflag
    by_cases hs : "Store" ∈ (afterDateFilter parse t).cols
    · have hnull : allNull (afterDateFilter parse t) "Store" = false := by
        by_contra htrue
        rw [Bool.not_eq_false] at htrue
        exact hflag (by simp [storeDropFlag, htrue, hs])
      obtain ⟨r, hr, hrnn⟩ := (allNull_eq_false_iff _ _).mp hnull
      have hrc : r ∈ (cleanTable parse t).rows := by
        rw [cleanTable]
        refine mem_dedupFirst.mpr ?_
        rw [beforeDedup, hflagf]
        simp only [Bool.false_eq_true, if_false]
        exact hr
      have : allNull (cleanTable parse t) "Store" = false :=
        (allNull_eq_false_iff _ _).mpr ⟨r, hrc, hrnn⟩
      rw [this, Bool.and_false]
    · have hs' : "Store" ∉ (cleanTable parse t).cols := by
        rw [cleanTable_cols, hflagf]
        simp only [Bool.false_eq_true, if_false]
        rw [afterDateFilter_cols] at hs
        exact hs
      simp [hs']

theorem beforeDedup_cleanTable (parse : String → Option Date) (t : Table) :
    beforeDedup parse (cleanTable parse t) = cleanTable parse t := by
  rw [beforeDedup, storeDropFlag_cleanTable]
  simp only [Bool.false_eq_true, if_false]
  exact afterDateFilter_cleanTable parse t

/-! ### Frequency aggregations: sums, membership, ordering -/

theorem getCol_length (t : Table) (c : String) :
    (getCol t c).length = t.rows.length :=
  List.length_map _ _

theorem value_counts_perm (t : Table) (c : String) :
    (value_counts t c).Perm
      ((dedupFirst ((getCol t c).filter (fun x => x != Cell.null))).map
        (fun v => (v, countOcc v ((getCol t c).filter (fun x => x != Cell.null))))) :=
  List.perm_insertionSort countDesc _

theorem sum_value_counts (t : Table) (c : String) :
    ((value_counts t c).map Prod.snd).sum = nonNullCount t c := by
  have hperm := (value_counts_perm t c).map Prod.snd
  rw [hperm.sum_eq, List.map_map]
  have : (Prod.snd ∘ fun v => (v, countOcc v ((getCol t c).filter (fun x => x != Cell.null))))
      = fun v => countOcc v ((getCol t c).filter (fun x => x != Cell.null)) := rfl
  rw [this, sum_counts_dedupFirst]
  rfl

theorem nonNullCount_le (t : Table) (c : String) :
    nonNullCount t c ≤ t.rows.length := by
  rw [nonNullCount, ← getCol_length t c]
  exact List.length_filter_le _ _

theorem sum_take_le (l : List Nat) (n : Nat) : (l.take n).sum ≤ l.sum := by
  conv_rhs => rw [← List.take_append_drop n l]
  rw [List.sum_append]
  exact Nat.le_add_right _ _

theorem value_counts_fst_map (t : Table) (c : String) :
    ((value_counts t c).map Prod.fst).Perm
      (dedupFirst ((getCol t c).filter (fun x => x != Cell.null))) := by
  have hperm := (value_counts_perm t c).map Prod.fst
  rw [List.map_map] at hperm
  have : (Prod.fst ∘ fun v => (v, countOcc v ((getCol t c).filter (fun x => x != Cell.null))))
      = id := rfl
  rw [this, List.map_id] at hperm
  exact hperm

theorem value_counts_mem_fst (t : Table) (c : String) (v : Cell) :
    v ∈ (value_counts t c).map Prod.fst ↔ (v ≠ Cell.null ∧ v ∈ getCol t c) := by
  rw [(value_counts_fst_map t c).mem_iff, mem_dedupFirst, List.mem_filter]
  constructor
  · rintro ⟨hmem, hne⟩
    exact ⟨bne_iff_ne.mp hne, hmem⟩
  · rintro ⟨hne, hmem⟩
    exact ⟨hmem, bne_iff_ne.mpr hne⟩

theorem value_counts_nodup_fst (t : Table) (c : String) :
    ((value_counts t c).map Prod.fst).Nodup :=
  (value_counts_fst_map t c).symm.nodup (nodup_dedupFirst _)

theorem value_counts_count (t : Table) (c : String) (v : Cell) (n : Nat) :
    (v, n) ∈ value_counts t c →
      n = countOcc v ((getCol t c).filter (fun x => x != Cell.null)) := by
  intro hmem
  have hmem' := (value_counts_perm t c).mem_iff.mp hmem
  obtain ⟨v0, _, heq⟩ := List.mem_map.mp hmem'
  obtain ⟨h1, h2⟩ := Prod.mk.injEq .. ▸ heq
  exact h1 ▸ h2.symm

theorem value_counts_sorted (t : Table) (c : String) :
    List.Pairwise countDesc (value_counts t c) :=
  List.sorted_insertionSort countDesc _

theorem pairwise_take_drop {α : Type} {R : α → α → Prop} {l : List α}
    (h : List.Pairwise R l) (n : Nat) :
    ∀ p ∈ l.take n, ∀ q ∈ l.drop n, R p q := by
  have hsplit := List.take_append_drop n l
  rw [← hsplit] at h
  exact (List.pairwise_append.mp h).2.2

/-! ### The monthly trend aggregation -/

theorem monthly_cases_eq (t : Table) :
    monthly_cases t =
      (List.insertionSort ymLe
        (dedupFirst ((getCol t "Opened Date").filterMap monthKey))).map
        (fun k => (k, countOcc k ((getCol t "Opened Date").filterMap monthKey))) := rfl

theorem monthly_keys_sorted (t : Table) :
    List.Pairwise ymLe
      (List.insertionSort ymLe (dedupFirst ((getCol t "Opened Date").filterMap monthKey))) :=
  List.sorted_insertionSort ymLe _

theorem monthly_keys_nodup (t : Table) :
    (List.insertionSort ymLe
      (dedupFirst ((getCol t "Opened Date").filterMap monthKey))).Nodup :=
  (List.perm_insertionSort ymLe _).symm.nodup (nodup_dedupFirst _)

theorem ymLe_ne_lt {a b : Nat × Nat} (hle : ymLe a b) (hne : a ≠ b) : ymLt a b := by
  obtain ⟨a1, a2⟩ := a
  obtain ⟨b1, b2⟩ := b
  rw [ymLe] at hle
  rw [ymLt]
  have hne2 : a1 ≠ b1 ∨ a2 ≠ b2 := by
    by_contra hc
    push_neg at hc
    exact hne (by rw [hc.1, hc.2])
  rcases hle with h | ⟨heq, hle2⟩
  · exact Or.inl h
  · subst heq
    rcases hne2 with h1 | h2
    · exact absurd rfl h1
    · exact Or.inr ⟨rfl, Nat.lt_of_le_of_ne hle2 h2⟩

theorem monthly_keys_strict (t : Table) :
    List.Pairwise ymLt
      (List.insertionSort ymLe (dedupFirst ((getCol t "Opened Date").filterMap monthKey))) := by
  have h := (monthly_keys_sorted t).and (monthly_keys_nodup t)
  exact h.imp (fun hab => ymLe_ne_lt hab.1 hab.2)

theorem monthly_cases_chain (t : Table) :
    List.Chain' (fun a b => ymLt a.1 b.1) (monthly_cases t) := by
  rw [monthly_cases_eq, List.chain'_map]
  exact (monthly_keys_strict t).chain'

theorem monthly_cases_pos (t : Table) :
    ∀ p ∈ monthly_cases t, 0 < p.2 := by
  intro p hp
  rw [monthly_cases_eq] at hp
  obtain ⟨k, hk, rfl⟩ := List.mem_map.mp hp
  have hk' : k ∈ (getCol t "Opened Date").filterMap monthKey :=
    mem_dedupFirst.mp ((List.perm_insertionSort ymLe _).mem_iff.mp hk)
  exact countOcc_pos.mpr hk'

theorem monthly_cases_mem_fst (t : Table) (k : Nat × Nat) :
    k ∈ (monthly_cases t).map Prod.fst ↔
      ∃ r ∈ t.rows, monthKey (getCell r "Opened Date") = some k := by
  rw [monthly_cases_eq, List.map_map]
  have : (Prod.fst ∘ fun k => (k, countOcc k ((getCol t "Opened Date").filterMap monthKey)))
      = id := rfl
  rw [this, List.map_id, (List.perm_insertionSort ymLe _).mem_iff, mem_dedupFirst,
    List.mem_filterMap]
  constructor
  · rintro ⟨x, hx, hxk⟩
    obtain ⟨r, hr, rfl⟩ := List.mem_map.mp hx
    exact ⟨r, hr, hxk⟩
  · rintro ⟨r, hr, hrk⟩
    exact ⟨getCell r "Opened Date", List.mem_map.mpr ⟨r, hr, rfl⟩, hrk⟩

theorem length_filterMap_of_isSome {α β : Type} {f : α → Option β} :
    ∀ {l : List α}, (∀ a ∈ l, (f a).isSome) → (l.filterMap f).length = l.length := by
  intro l
  induction l with
  | nil => simp
  | cons a l ih =>
    intro h
    have ha := h a (List.mem_cons_self a l)
    obtain ⟨b, hb⟩ := Option.isSome_iff_exists.mp ha
    rw [List.filterMap_cons, hb]
    simp only [List.length_cons]
    rw [ih (fun x hx => h x (List.mem_cons_of_mem a hx))]

theorem getCell_map_set_ne {c c0 : String} (hne : c ≠ c0) (v : Cell) (r : Row) :
    getCell (r.map (fun p => if p.1 == c0 then (p.1, v) else p)) c = getCell r c := by
  induction r with
  | nil => rfl
  | cons p r ih =>
    by_cases hp : (p.1 == c0) = true
    · have hp' : p.1 = c0 := beq_iff_eq.mp hp
      have hpc : (p.1 == c) = false :=
        beq_eq_false_iff_ne.mpr (fun h => hne (h.symm.trans hp'))
      simp only [List.map_cons, hp, if_true, getCell, hpc, Bool.false_eq_true, if_false]
      exact ih
    · simp only [List.map_cons, hp, Bool.false_eq_true, if_false, getCell]
      by_cases hc : (p.1 == c) = true
      · simp [hc]
      · simp only [hc, Bool.false_eq_true, if_false]
        exact ih

theorem getCell_append_single_ne {c c0 : String} (hne : c ≠ c0) (v : Cell) (r : Row) :
    getCell (r ++ [(c0, v)]) c = getCell r c := by
  induction r with
  | nil =>
    have hc : (c0 == c) = false := beq_eq_false_iff_ne.mpr (fun h => hne h.symm)
    simp [getCell, hc]
  | cons p r ih =>
    by_cases hc : (p.1 == c) = true
    · simp [getCell, hc]
    · simp only [List.cons_append, getCell, hc, Bool.false_eq_true, if_false]
      exact ih

theorem getCell_setRowCell_ne {c c0 : String} (hne : c ≠ c0) (v : Cell) (r : Row) :
    getCell (setRowCell c0 v r) c = getCell r c := by
  unfold setRowCell
  by_cases hany : r.any (fun p => p.1 == c0)
  · rw [if_pos hany]
    exact getCell_map_set_ne hne v r
  · rw [if_neg hany]
    exact getCell_append_single_ne hne v r

theorem getCell_setRowCell_self (c : String) (v : Cell) (r : Row) :
    getCell (setRowCell c v r) c = v := by
  unfold setRowCell
  by_cases hany : (r.any (fun p => p.1 == c)) = true
  · rw [if_pos hany]
    induction r with
    | nil => simp at hany
    | cons p r ih =>
      by_cases hp : (p.1 == c) = true
      · simp [getCell, hp]
      · simp only [List.any_cons, hp, Bool.false_or] at hany
        simp only [List.map_cons, hp, Bool.false_eq_true, if_false, getCell]
        exact ih hany
  · rw [if_neg hany]
    induction r with
    | nil => simp [getCell]
    | cons p r ih =>
      simp only [List.any_cons, Bool.or_eq_true, not_or] at hany
      have hp : (p.1 == c) = false := Bool.eq_false_iff.mpr hany.1
      simp only [List.cons_append, getCell, hp, Bool.false_eq_true, if_false]
      exact ih (fun h => hany.2 h)

theorem addYearMonth_rows_length (t : Table) :
    (addYearMonth t).rows.length = t.rows.length := by
  simp [addYearMonth]

theorem mem_cols_addYearMonth (t : Table) (c : String) :
    c ∈ (addYearMonth t).cols ↔ (c ∈ t.cols ∨ c = "YearMonth") := by
  show c ∈ (if "YearMonth" ∈ t.cols then t.cols else t.cols ++ ["YearMonth"]) ↔ _
  by_cases hym : "YearMonth" ∈ t.cols
  · rw [if_pos hym]
    constructor
    · exact Or.inl
    · rintro (h | rfl)
      · exact h
      · exact hym
  · rw [if_neg hym]
    simp [List.mem_append]

theorem getCol_addYearMonth_ne {c : String} (hne : c ≠ "YearMonth") (t : Table) :
    getCol (addYearMonth t) c = getCol t c := by
  show (t.rows.map _).map (fun r => getCell r c) = t.rows.map (fun r => getCell r c)
  rw [List.map_map]
  refine List.map_congr_left (fun r _ => ?_)
  exact getCell_setRowCell_ne hne _ r

theorem getCol_addYearMonth_self (t : Table) :
    getCol (addYearMonth t) "YearMonth"
      = t.rows.map (fun r => yearMonthCell (getCell r "Opened Date")) := by
  show (t.rows.map _).map (fun r => getCell r "YearMonth") = _
  rw [List.map_map]
  refine List.map_congr_left (fun r _ => ?_)
  exact getCell_setRowCell_self _ _ r

theorem monthly_cases_sum (parse : String → Option Date) (t : Table) :
    ((monthly_cases (cleanTable parse t)).map Prod.snd).sum
      = (cleanTable parse t).rows.length := by
  rw [monthly_cases_eq, List.map_map]
  have hcomp : (Prod.snd ∘ fun k =>
      (k, countOcc k ((getCol (cleanTable parse t) "Opened Date").filterMap monthKey)))
      = fun k => countOcc k ((getCol (cleanTable parse t) "Opened Date").filterMap monthKey) :=
    rfl
  rw [hcomp]
  have hperm := (List.perm_insertionSort ymLe
    (dedupFirst ((getCol (cleanTable parse t) "Opened Date").filterMap monthKey))).map
    (fun k => countOcc k ((getCol (cleanTable parse t) "Opened Date").filterMap monthKey))
  rw [hperm.sum_eq, sum_counts_dedupFirst]
  rw [length_filterMap_of_isSome, getCol_length]
  intro x hx
  obtain ⟨r, hr, rfl⟩ := List.mem_map.mp hx
  obtain ⟨d, hd⟩ := cleanTable_openedDate parse t r hr
  rw [hd]
  simp [monthKey]

/-! ### The claims -/

/-- Claim C1, counterexample: after the five aggregations the dataframe is
not the table the cleaner returned — line 108 added a YearMonth column.
Shown on a concrete one-row input. -/
theorem claim_C1_counterexample :
    (runApp parse0 (some ex1)).finalTable ≠ some (cleanTable parse0 ex1) := by
  decide

/-- Claim C1 as amended: the four frequency aggregations leave the cleaned
dataset untouched (they are pure functions of it), and the monthly trend
step changes it only by writing the derived YearMonth column (overwritten
in place when it already exists, appended otherwise): the row count is
unchanged, the columns are exactly the cleaned ones plus YearMonth, every
column other than YearMonth keeps exactly its values, and YearMonth holds
each row's opened-date month period. -/
theorem claim_C1_amended (parse : String → Option Date) (t : Table) :
    (runApp parse (some t)).finalTable = some (addYearMonth (cleanTable parse t)) ∧
    (addYearMonth (cleanTable parse t)).rows.length = (cleanTable parse t).rows.length ∧
    (∀ c : String, c ∈ (addYearMonth (cleanTable parse t)).cols ↔
      (c ∈ (cleanTable parse t).cols ∨ c = "YearMonth")) ∧
    (∀ c : String, c ≠ "YearMonth" →
      getCol (addYearMonth (cleanTable parse t)) c = getCol (cleanTable parse t) c) ∧
    getCol (addYearMonth (cleanTable parse t)) "YearMonth"
      = (cleanTable parse t).rows.map (fun r => yearMonthCell (getCell r "Opened Date")) :=
  ⟨rfl, addYearMonth_rows_length _, mem_cols_addYearMonth _,
    fun _ hc => getCol_addYearMonth_ne hc _, getCol_addYearMonth_self _⟩

/-- Claim C1 witness: on a concrete run, a column other than YearMonth is
unchanged by the monthly trend step. -/
theorem claim_C1_witness :
    getCol (addYearMonth (cleanTable parse0 ex1)) "Opened Date"
      = getCol (cleanTable parse0 ex1) "Opened Date" :=
  (claim_C1_amended parse0 ex1).2.2.2.1 "Opened Date" (by decide)

/-- Claim C2, counterexample: a column that is 100% absent but is not
named Store survives cleaning, on a concrete one-row input (so not
vacuously: the cleaned table has one row). -/
theorem claim_C2_counterexample :
    "Foo" ∈ (cleanTable parse0 ex2).cols ∧
    allNull (cleanTable parse0 ex2) "Foo" = true ∧
    (cleanTable parse0 ex2).rows.length = 1 := by
  decide

/-- Claim C2 as amended: after cleaning, exactly the column named Store is
removed, and only when its values are absent in 100% of the rows remaining
after timestamp filtering; a column with any other name is never removed,
even if entirely absent. -/
theorem claim_C2_amended (parse : String → Option Date) (t : Table) :
    (storeDropFlag parse t = true → "Store" ∉ (cleanTable parse t).cols) ∧
    (∀ c ∈ t.cols, c ≠ "Store" → c ∈ (cleanTable parse t).cols) := by
  constructor
  · intro hflag
    rw [cleanTable_cols, hflag]
    simp only [if_true]
    intro hmem
    exact bne_iff_ne.mp (List.mem_filter.mp hmem).2 rfl
  · intro c hc hne
    rw [cleanTable_cols]
    by_cases hflag : storeDropFlag parse t
    · rw [if_pos hflag]
      exact List.mem_filter.mpr ⟨hc, bne_iff_ne.mpr hne⟩
    · rw [if_neg hflag]
      exact hc

/-- Claim C2 witness: on a concrete input whose Store column is all
absent and whose Foo column is populated, Store is pruned and Foo kept. -/
theorem claim_C2_witness :
    "Store" ∉ (cleanTable parse0 exStore).cols ∧
    "Foo" ∈ (cleanTable parse0 exStore).cols := by
  constructor
  · exact (claim_C2_amended parse0 exStore).1 (by decide)
  · exact (claim_C2_amended parse0 exStore).2 "Foo" (by decide) (by decide)

/-- Claim C3, counterexample: on a cleaned dataset whose single row has an
absent Status value, the status counts sum to 0, not to the row count 1
(`value_counts` drops absent values). -/
theorem claim_C3_counterexample :
    ¬ ((status_counts (cleanTable parse0 ex3)).map Prod.snd).sum
        = (cleanTable parse0 ex3).rows.length := by
  decide

/-- Claim C3 as amended: the status and origin counts sum to the number of
rows whose value in that column is present, which is at most the total row
count (with equality whenever the column has no absent values); the
truncated top-10 brand and reason sums are at most the total row count. -/
theorem claim_C3_amended (t : Table) :
    ((status_counts t).map Prod.snd).sum = nonNullCount t "Status" ∧
    ((origin_counts t).map Prod.snd).sum = nonNullCount t "Case Origin" ∧
    nonNullCount t "Status" ≤ t.rows.length ∧
    nonNullCount t "Case Origin" ≤ t.rows.length ∧
    ((top_brands t).map Prod.snd).sum ≤ t.rows.length ∧
    ((top_reasons t).map Prod.snd).sum ≤ t.rows.length := by
  refine ⟨sum_value_counts t "Status", sum_value_counts t "Case Origin",
    nonNullCount_le t "Status", nonNullCount_le t "Case Origin", ?_, ?_⟩
  · have h1 : ((top_brands t).map Prod.snd).sum
        ≤ ((value_counts t "Product: Brand").map Prod.snd).sum := by
      rw [top_brands, List.map_take]
      exact sum_take_le _ _
    exact le_trans h1 (le_of_eq (sum_value_counts t "Product: Brand") |>.trans
      (nonNullCount_le t "Product: Brand"))
  · have h1 : ((top_reasons t).map Prod.snd).sum
        ≤ ((value_counts t "Reason L1 desc").map Prod.snd).sum := by
      rw [top_reasons, List.map_take]
      exact sum_take_le _ _
    exact le_trans h1 (le_of_eq (sum_value_counts t "Reason L1 desc") |>.trans
      (nonNullCount_le t "Reason L1 desc"))

/-- Claim C4: the status and origin aggregations have one pair per distinct
present value of their column (every occurring non-null value appears,
no value appears twice, and each pair carries the occurrence count); the
brand and reason aggregations keep at most 10 pairs, sorted by descending
count, and no discarded pair has a higher count than a kept one. -/
theorem claim_C4 (t : Table) :
    (∀ v : Cell, v ∈ (status_counts t).map Prod.fst ↔
      (v ≠ Cell.null ∧ v ∈ getCol t "Status")) ∧
    (∀ v : Cell, v ∈ (origin_counts t).map Prod.fst ↔
      (v ≠ Cell.null ∧ v ∈ getCol t "Case Origin")) ∧
    ((status_counts t).map Prod.fst).Nodup ∧
    ((origin_counts t).map Prod.fst).Nodup ∧
    (∀ v n, (v, n) ∈ status_counts t →
      n = countOcc v ((getCol t "Status").filter (fun x => x != Cell.null))) ∧
    (top_brands t).length ≤ 10 ∧
    (top_reasons t).length ≤ 10 ∧
    List.Pairwise countDesc (top_brands t) ∧
    List.Pairwise countDesc (top_reasons t) ∧
    (∀ p ∈ top_brands t, ∀ q ∈ (value_counts t "Product: Brand").drop 10, q.2 ≤ p.2) ∧
    (∀ p ∈ top_reasons t, ∀ q ∈ (value_counts t "Reason L1 desc").drop 10, q.2 ≤ p.2) := by
  refine ⟨value_counts_mem_fst t "Status", value_counts_mem_fst t "Case Origin",
    value_counts_nodup_fst t "Status", value_counts_nodup_fst t "Case Origin",
    value_counts_count t "Status", List.length_take_le _ _, List.length_take_le _ _,
    List.Pairwise.sublist (List.take_sublist _ _) (value_counts_sorted t "Product: Brand"),
    List.Pairwise.sublist (List.take_sublist _ _) (value_counts_sorted t "Reason L1 desc"),
    ?_, ?_⟩
  · exact pairwise_take_drop (value_counts_sorted t "Product: Brand") 10
  · exact pairwise_take_drop (value_counts_sorted t "Reason L1 desc") 10

/-- Claim C4 witness: on a concrete eleven-brand input, the occurring
status value appears in the status aggregation with its count, and the
eleventh brand pair (discarded by the top-10 cut) has no higher count
than a kept pair. -/
theorem claim_C4_witness :
    Cell.str "Open" ∈ (status_counts (cleanTable parse0 exBrands)).map Prod.fst ∧
    (11 : Nat) = countOcc (Cell.str "Open")
      ((getCol (cleanTable parse0 exBrands) "Status").filter (fun x => x != Cell.null)) ∧
    ((Cell.str "B11", 1) : Cell × Nat).2 ≤ ((Cell.str "B01", 1) : Cell × Nat).2 := by
  refine ⟨?_, ?_, ?_⟩
  · exact ((claim_C4 (cleanTable parse0 exBrands)).1 (Cell.str "Open")).mpr (by decide)
  · exact (claim_C4 (cleanTable parse0 exBrands)).2.2.2.2.1 (Cell.str "Open") 11 (by decide)
  · exact (claim_C4 (cleanTable parse0 exBrands)).2.2.2.2.2.2.2.2.2.1
      (Cell.str "B01", 1) (by decide) (Cell.str "B11", 1) (by decide)

/-- Claim C5: every row of the cleaned dataset has a present, successfully
parsed opened timestamp (rows whose opened-date value fails to parse were
dropped entirely). -/
theorem claim_C5 (parse : String → Option Date) (t : Table) :
    ∀ r ∈ (cleanTable parse t).rows,
      getCell r "Opened Date" ≠ Cell.null ∧
      ∃ d, getCell r "Opened Date" = Cell.date d := by
  intro r hr
  obtain ⟨d, hd⟩ := cleanTable_openedDate parse t r hr
  refine ⟨?_, d, hd⟩
  rw [hd]
  exact fun h => Cell.noConfusion h

/-- Claim C5 witness: the single surviving row of a concrete input holds a
parsed date. -/
theorem claim_C5_witness :
    getCell [("Opened Date", Cell.date (Date.mk 2024 1 2))] "Opened Date" ≠ Cell.null ∧
    ∃ d, getCell [("Opened Date", Cell.date (Date.mk 2024 1 2))] "Opened Date"
      = Cell.date d :=
  claim_C5 parse0 ex1 [("Opened Date", Cell.date (Date.mk 2024 1 2))] (by decide)

/-- Claim C6: the cleaned dataset holds no two identical rows, each group
of identical rows collapses to one instance (membership is preserved by
deduplication), and the number of rows removed is reported in the sidebar
message. -/
theorem claim_C6 (parse : String → Option Date) (t : Table) :
    (cleanTable parse t).rows.Nodup ∧
    (∀ r : Row, r ∈ (cleanTable parse t).rows ↔ r ∈ (beforeDedup parse t).rows) ∧
    dupMessage ((beforeDedup parse t).rows.length - (cleanTable parse t).rows.length)
      ∈ sidebarOf (load_and_clean_data parse (some t)) := by
  refine ⟨cleanTable_nodup parse t, fun r => mem_dedupFirst, ?_⟩
  exact List.mem_append_right _ (List.mem_singleton.mpr rfl)

/-- Claim C7: cleaning is idempotent — running the cleaning pass on an
already-cleaned dataset returns it unchanged (in particular with the same
row count). -/
theorem claim_C7 (parse : String → Option Date) (t : Table) :
    cleanTable parse (cleanTable parse t) = cleanTable parse t := by
  have h1 : cleanTable parse (cleanTable parse t)
      = { beforeDedup parse (cleanTable parse t) with
          rows := dedupFirst (beforeDedup parse (cleanTable parse t)).rows } := rfl
  rw [h1, beforeDedup_cleanTable, dedupFirst_eq_self (cleanTable_nodup parse t)]

/-- Claim C8: on the cleaned dataset, the monthly trend is strictly
increasing in month key, every count is positive, and the listed months
are exactly those with at least one record. -/
theorem claim_C8 (parse : String → Option Date) (t0 : Table) :
    List.Chain' (fun a b => ymLt a.1 b.1) (monthly_cases (cleanTable parse t0)) ∧
    (∀ p ∈ monthly_cases (cleanTable parse t0), 0 < p.2) ∧
    (∀ k : Nat × Nat, k ∈ (monthly_cases (cleanTable parse t0)).map Prod.fst ↔
      ∃ r ∈ (cleanTable parse t0).rows, monthKey (getCell r "Opened Date") = some k) :=
  ⟨monthly_cases_chain _, monthly_cases_pos _, monthly_cases_mem_fst _ ⟩

/-- Claim C8 witness: on a concrete two-month input, the January bucket is
listed and its count is positive. -/
theorem claim_C8_witness :
    (0 : Nat) < ((((2024 : Nat), (1 : Nat)), (1 : Nat)) : (Nat × Nat) × Nat).2 ∧
    ((2024, 1) : Nat × Nat) ∈ (monthly_cases (cleanTable parse0 ex4)).map Prod.fst := by
  constructor
  · exact (claim_C8 parse0 ex4).2.1 ((2024, 1), 1) (by decide)
  · exact ((claim_C8 parse0 ex4).2.2 (2024, 1)).mpr
      ⟨[("Opened Date", Cell.date (Date.mk 2024 1 2)), ("Status", Cell.str "Open")],
        by decide, by decide⟩

/-- Claim C9: if the input file is absent, the run surfaces exactly one
descriptive error message, renders zero charts, and never reaches an
aggregation (no final dataframe exists). -/
theorem claim_C9 (parse : String → Option Date) :
    runApp parse none = Dashboard.mk
      ["Error: 'data.csv' not found. Please make sure the file is in the same directory as the Streamlit app."]
      [] none ∧
    (runApp parse none).charts.length = 0 :=
  ⟨rfl, rfl⟩

/-- Claim C10: the monthly trend counts sum exactly to the row count of the
cleaned dataset — every cleaned row has a parsed date and so falls into
exactly one year-month bucket. -/
theorem claim_C10 (parse : String → Option Date) (t0 : Table) :
    ((monthly_cases (cleanTable parse t0)).map Prod.snd).sum
      = (cleanTable parse t0).rows.length :=
  monthly_cases_sum parse t0

end CaseAnalysis
